import Mathlib

/-!
Verification of the UdemyBoto3Scripts utilities.

Each script is shallowly embedded: the pure logic (region resolution,
tag parsing, filtering, level selection) is translated directly, and the
effectful SDK interactions are modelled by passing the SDK responses in
as explicit arguments and returning the list of SDK calls the function
would issue as an explicit trace.
-/

namespace Boto3Scripts

/-! ## Python truthiness helpers

Python treats None and the empty string as falsy; `x or y` returns `x`
when `x` is truthy and `y` otherwise.  Optional strings are modelled as
`Option String`, with `none` for Python None. -/

/-- Truthiness of an optional Python string: None and the empty string are falsy. -/
def truthyStr : Option String → Bool
  | none => false
  | some s => !(s = "")

/-- Python `x or y` on optional strings. -/
def pyOrStr (a b : Option String) : Option String :=
  if truthyStr a then a else b

/-- Truthiness of an optional Python list: None and the empty list are falsy. -/
def truthyList {α : Type} : Option (List α) → Bool
  | none => false
  | some l => !l.isEmpty

/-! ## aws_utils.py -/

/-- Retry settings of the shared botocore Config. -/
structure RetryConfig where
  maxAttempts : Nat
  mode : String
deriving DecidableEq, Repr

/-- The botocore Config fields the module sets. -/
structure BotoConfig where
  retries : RetryConfig
  userAgentExtra : String
deriving DecidableEq, Repr

/-- aws_utils._DEFAULT_CONFIG: adaptive retries and a pinned user agent suffix. -/
def _DEFAULT_CONFIG : BotoConfig :=
  { retries := { maxAttempts := 10, mode := "adaptive" },
    userAgentExtra := "UdemyBoto3Scripts/2025-12" }

/-- The error message _resolve_region raises when no region can be found. -/
def noRegionMessage : String :=
  "No AWS region configured. Set AWS_REGION/AWS_DEFAULT_REGION, configure a default region for the profile, or pass --region."

/-- aws_utils._resolve_region.  The boto3 session is abstracted to its
region_name attribute (the profile-configured region), and the two
environment variables are passed explicitly.  Python evaluates
region or session.region_name or AWS_REGION or AWS_DEFAULT_REGION
and raises ValueError when the result is falsy. -/
def _resolve_region (sessionRegion region awsRegionEnv awsDefaultRegionEnv : Option String) :
    Except String String :=
  let resolved :=
    pyOrStr region (pyOrStr sessionRegion (pyOrStr awsRegionEnv awsDefaultRegionEnv))
  if truthyStr resolved then Except.ok (resolved.getD "")
  else Except.error noRegionMessage

/-- A constructed boto3 client or resource: the service, the concrete
region it was given, and the botocore config in effect. -/
structure ClientSpec where
  service : String
  region : String
  config : BotoConfig
deriving DecidableEq, Repr

/-- aws_utils.get_client.  The session is abstracted to its region_name;
the client is created only after _resolve_region succeeds, with
config or _DEFAULT_CONFIG. -/
def get_client (service : String) (sessionRegion region awsRegionEnv awsDefaultRegionEnv : Option String)
    (config : Option BotoConfig) : Except String ClientSpec :=
  match _resolve_region sessionRegion region awsRegionEnv awsDefaultRegionEnv with
  | Except.error e => Except.error e
  | Except.ok r => Except.ok { service := service, region := r, config := config.getD _DEFAULT_CONFIG }

/-- aws_utils.get_resource: identical construction to get_client. -/
def get_resource (service : String) (sessionRegion region awsRegionEnv awsDefaultRegionEnv : Option String)
    (config : Option BotoConfig) : Except String ClientSpec :=
  match _resolve_region sessionRegion region awsRegionEnv awsDefaultRegionEnv with
  | Except.error e => Except.error e
  | Except.ok r => Except.ok { service := service, region := r, config := config.getD _DEFAULT_CONFIG }

/-- Spec-side reading of claim C1: the first non-empty value in a
preference-ordered list of sources, where None and the empty string
count as empty. -/
def firstNonEmpty : List (Option String) → Option String
  | [] => none
  | none :: rest => firstNonEmpty rest
  | some s :: rest => if s = "" then firstNonEmpty rest else some s

/-- Python logging level constants. -/
def WARNING : Nat := 30

/-- Python logging level constant INFO. -/
def INFO : Nat := 20

/-- Python logging level constant DEBUG. -/
def DEBUG : Nat := 10

/-- aws_utils.configure_logging: the root-logger level chosen from the
verbosity count (argparse action=count, an integer). -/
def configure_logging (verbosity : Int) : Nat :=
  if verbosity ≥ 2 then DEBUG
  else if verbosity = 1 then INFO
  else WARNING

/-! ## start_stop_re_ter.py -/

/-- The four actions argparse admits (choices in build_parser). -/
inductive EC2Action where
  | start
  | stop
  | reboot
  | terminate
deriving DecidableEq, Repr

/-- The operations dict of change_state: which SDK operation each action maps to. -/
def actionOpName : EC2Action → String
  | EC2Action.start => "start_instances"
  | EC2Action.stop => "stop_instances"
  | EC2Action.reboot => "reboot_instances"
  | EC2Action.terminate => "terminate_instances"

/-- ACTION_WAITERS: the waiter used after each action, when one exists. -/
def ACTION_WAITERS : EC2Action → Option String
  | EC2Action.start => some "instance_running"
  | EC2Action.stop => some "instance_stopped"
  | EC2Action.terminate => some "instance_terminated"
  | EC2Action.reboot => none

/-- A botocore ClientError, abstracted to its response Error.Code field
(absent fields give None via the .get chain). -/
structure ClientError where
  code : Option String
deriving DecidableEq, Repr

/-- Outcome of one EC2 state-change SDK call, supplied by the environment. -/
inductive CallOutcome where
  | success
  | failure (e : ClientError)
deriving DecidableEq, Repr

/-- One entry in the trace of SDK interactions change_state performs. -/
inductive EC2Call where
  | stateChange (op : String) (instanceIds : List String) (dryRun : Bool)
  | waiterWait (waiterName : String) (instanceIds : List String)
deriving DecidableEq, Repr

/-- Whether a trace entry is a state-changing SDK operation (a waiter is read-only). -/
def isStateChange : EC2Call → Bool
  | EC2Call.stateChange _ _ _ => true
  | EC2Call.waiterWait _ _ => false

/-- start_stop_re_ter.change_state after client construction: performs
operations[action](InstanceIds=instance_ids, DryRun=dry_run), swallows a
DryRunOperation ClientError under dry_run, re-raises any other
ClientError, and on success waits when requested and a waiter exists.
Returns the Python outcome (normal return or propagated ClientError)
together with the trace of SDK calls issued. -/
def change_state (action : EC2Action) (instanceIds : List String) (dryRun wait : Bool)
    (outcome : CallOutcome) : Except ClientError Unit × List EC2Call :=
  let call := EC2Call.stateChange (actionOpName action) instanceIds dryRun
  match outcome with
  | CallOutcome.success =>
    match ACTION_WAITERS action with
    | some w =>
      if wait then (Except.ok (), [call, EC2Call.waiterWait w instanceIds])
      else (Except.ok (), [call])
    | none => (Except.ok (), [call])
  | CallOutcome.failure e =>
    if dryRun && (e.code == some "DryRunOperation") then (Except.ok (), [call])
    else (Except.error e, [call])

/-! ## resource_ebs_snap.py -/

/-- A parsed tag filter, as passed to describe/filter Filters:
Name is "tag:" followed by the key, Values the one parsed value.
Strings are modelled as character lists so splitting is structural. -/
structure TagFilter where
  name : List Char
  values : List (List Char)
deriving DecidableEq, Repr

/-- Python s.split(sep, 1) restricted to what the scripts need: split at
the first occurrence of the separator, returning none when the
separator does not occur (the scripts guard with "in" first). -/
def splitFirst (sep : Char) : List Char → Option (List Char × List Char)
  | [] => none
  | c :: rest =>
    if c = sep then some ([], rest)
    else
      match splitFirst sep rest with
      | some kv => some (c :: kv.1, kv.2)
      | none => none

/-- resource_ebs_snap._parse_tag_filters (textually identical in
list_instances.py): each element must contain "=", is split at the
first "=", and becomes a tag filter; otherwise ValueError, carrying the
offending element. -/
def _parse_tag_filters : List (List Char) → Except (List Char) (List TagFilter)
  | [] => Except.ok []
  | t :: rest =>
    match splitFirst '=' t with
    | none => Except.error t
    | some kv =>
      match _parse_tag_filters rest with
      | Except.error e => Except.error e
      | Except.ok parsed =>
        Except.ok ({ name := [ 't', 'a', 'g', ':'] ++ kv.1, values := [kv.2] } :: parsed)

/-- One IAM tag as built by IAM/create_120users._parse_tags. -/
structure IamTag where
  key : List Char
  value : List Char
deriving DecidableEq, Repr

/-- IAM/create_120users._parse_tags: same Key=Value parsing, producing
Key/Value dicts instead of filters. -/
def _parse_tags : List (List Char) → Except (List Char) (List IamTag)
  | [] => Except.ok []
  | t :: rest =>
    match splitFirst '=' t with
    | none => Except.error t
    | some kv =>
      match _parse_tags rest with
      | Except.error e => Except.error e
      | Except.ok parsed => Except.ok ({ key := kv.1, value := kv.2 } :: parsed)

/-- Outcome of one create_snapshot SDK call: a response whose SnapshotId
may be absent, or a ClientError. -/
inductive SnapOutcome where
  | success (snapshotId : Option String)
  | failure (e : ClientError)
deriving DecidableEq, Repr

/-- One entry in the trace of SDK interactions create_snapshots performs. -/
inductive SnapEvent where
  | createSnapshot (description : String) (volumeId : String) (deleteOnDays : Int) (dryRun : Bool)
  | snapshotWaiter (snapshotIds : List String)
deriving DecidableEq, Repr

/-- The per-volume loop of resource_ebs_snap.create_snapshots: walks the
volume ids accumulating SnapshotIds, swallowing DryRunOperation
ClientErrors under dry_run and aborting on any other ClientError.
Returns (accumulated snapshot ids, trace, propagated error if any). -/
def snapLoop (description : String) (deleteOnDays : Int) (dryRun : Bool)
    (outcome : String → SnapOutcome) (acc : List String) :
    List String → List String × List SnapEvent × Option ClientError
  | [] => (acc, [], none)
  | v :: rest =>
    let call := SnapEvent.createSnapshot description v deleteOnDays dryRun
    match outcome v with
    | SnapOutcome.success sid =>
      let acc2 := match sid with
        | some s => acc ++ [s]
        | none => acc
      let r := snapLoop description deleteOnDays dryRun outcome acc2 rest
      (r.1, call :: r.2.1, r.2.2)
    | SnapOutcome.failure e =>
      if dryRun && (e.code == some "DryRunOperation") then
        let r := snapLoop description deleteOnDays dryRun outcome acc rest
        (r.1, call :: r.2.1, r.2.2)
      else (acc, [call], some e)

/-- resource_ebs_snap.create_snapshots after client construction: runs
the per-volume loop, then waits for snapshot completion when requested,
snapshots were started, and dry_run is off. -/
def create_snapshots (volumeIds : List String) (description : String) (deleteOnDays : Int)
    (dryRun wait : Bool) (outcome : String → SnapOutcome) :
    Except ClientError (List String) × List SnapEvent :=
  let r := snapLoop description deleteOnDays dryRun outcome [] volumeIds
  match r.2.2 with
  | some e => (Except.error e, r.2.1)
  | none =>
    if wait && !r.1.isEmpty && !dryRun then
      (Except.ok r.1, r.2.1 ++ [SnapEvent.snapshotWaiter r.1])
    else (Except.ok r.1, r.2.1)

/-! ## delete_unused_untagged_ebs_volumes.py -/

/-- An EBS volume as seen through the ec2 resource iterator: its id, its
state attribute, and its tags attribute (None when the volume has no
tags at all). -/
structure Volume where
  id : String
  state : String
  tags : Option (List (String × String))
deriving DecidableEq, Repr

/-- One entry in the trace of SDK interactions of the volume tool. -/
inductive EbsCall where
  | describeVolumes (statusValues : List String)
  | deleteVolume (volumeId : String)
  | volumeDeletedWaiter (volumeIds : List String)
deriving DecidableEq, Repr

/-- The loop body of find_unused_untagged_volumes: skip any volume whose
tags attribute is truthy, collect (id, state) for the rest, in iterator
order. -/
def collectUntagged : List Volume → List (String × String)
  | [] => []
  | v :: rest =>
    if truthyList v.tags then collectUntagged rest
    else (v.id, v.state) :: collectUntagged rest

/-- delete_unused_untagged_ebs_volumes.find_unused_untagged_volumes
after resource construction: the iterator argument is the volume
collection the SDK yields for the status=available filter; the result
pairs come with the trace (the one filtered describe call). -/
def find_unused_untagged_volumes (vols : List Volume) :
    List (String × String) × List EbsCall :=
  (collectUntagged vols, [EbsCall.describeVolumes ["available"]])

/-- delete_unused_untagged_ebs_volumes.delete_volumes after client
construction: one delete_volume call per id, then the volume_deleted
waiter when wait is set and the id list is truthy. -/
def delete_volumes (volumeIds : List String) (wait : Bool) : List EbsCall :=
  volumeIds.map EbsCall.deleteVolume ++
    (if wait && !volumeIds.isEmpty then [EbsCall.volumeDeletedWaiter volumeIds] else [])

/-- The main flow of delete_unused_untagged_ebs_volumes: find the
volumes, return early when none were found, otherwise delete them only
under --apply.  Returns the full SDK trace. -/
def volumes_main (applyFlag waitFlag : Bool) (vols : List Volume) : List EbsCall :=
  let found := find_unused_untagged_volumes vols
  if found.1.isEmpty then found.2
  else
    found.2 ++ (if applyFlag then delete_volumes (found.1.map Prod.fst) waitFlag else [])

/-! ## access_keys.py -/

/-- One AccessKeyMetadata entry: dict .get calls give optional fields.
Times are modelled as integers (seconds since the epoch, UTC). -/
structure KeyMeta where
  accessKeyId : String
  status : Option String
  createDate : Option Int
deriving DecidableEq, Repr

/-- The AccessKeyLastUsed sub-dict of get_access_key_last_used. -/
structure LastUsedInfo where
  lastUsedDate : Option Int
  region : Option String
deriving DecidableEq, Repr

/-- A record yielded by find_old_access_keys. -/
structure KeyRecord where
  userName : String
  accessKeyId : String
  status : Option String
  createDate : Option Int
  lastUsed : Option Int
  region : Option String
deriving DecidableEq, Repr

/-- access_keys._iter_users: every truthy UserName across the list_users
pages, in page order. -/
def _iter_users (userPages : List (List (Option String))) : List String :=
  userPages.flatMap fun page =>
    page.filterMap fun u =>
      match u with
      | some s => if s = "" then none else some s
      | none => none

/-- Seconds in a day, for timedelta(days=n). -/
def secondsPerDay : Int := 86400

/-- The body of the innermost loop of find_old_access_keys: skip keys
that are not Active unless include_disabled, then yield only keys whose
CreateDate is truthy and before the cutoff, fetching last-used data for
the yielded key. -/
def processKey (cutoff : Int) (includeDisabled : Bool) (lastUsedOf : String → LastUsedInfo)
    (userName : String) (k : KeyMeta) : Option KeyRecord :=
  if k.status ≠ some "Active" && !includeDisabled then none
  else
    match k.createDate with
    | none => none
    | some d =>
      if d < cutoff then
        let lu := lastUsedOf k.accessKeyId
        some { userName := userName, accessKeyId := k.accessKeyId, status := k.status,
               createDate := some d, lastUsed := lu.lastUsedDate, region := lu.region }
      else none

/-- access_keys.find_old_access_keys: the cutoff is now minus
max_age_days days; for every user yielded by _iter_users, every page of
its list_access_keys paginator is scanned and matching keys are
yielded in order. -/
def find_old_access_keys (now maxAgeDays : Int) (includeDisabled : Bool)
    (userPages : List (List (Option String)))
    (keyPages : String → List (List KeyMeta))
    (lastUsedOf : String → LastUsedInfo) : List KeyRecord :=
  let cutoff := now - maxAgeDays * secondsPerDay
  (_iter_users userPages).flatMap fun userName =>
    (keyPages userName).flatMap fun page =>
      page.filterMap (processKey cutoff includeDisabled lastUsedOf userName)

/-! ## file_from_s3.py -/

/-- One bucket entry of the list_buckets response (its Name field). -/
structure Bucket where
  name : String
deriving DecidableEq, Repr

/-- file_from_s3.list_buckets after client construction: the single
response is abstracted to its optional Buckets list (.get with default
empty); the comprehension takes every Name in order. -/
def list_buckets (buckets : Option (List Bucket)) : List String :=
  (buckets.getD []).map Bucket.name

/-- One object entry of a list_objects_v2 page: its optional Key. -/
structure S3Object where
  key : Option String
deriving DecidableEq, Repr

/-- One page of the list_objects_v2 paginator: its optional Contents list. -/
structure S3Page where
  contents : Option (List S3Object)
deriving DecidableEq, Repr

/-- The paginate request list_objects issues. -/
structure PaginateRequest where
  bucket : String
  keyPfx : String
  pageSize : Int
deriving DecidableEq, Repr

/-- The inner loop of list_objects over one page: yield each non-None Key. -/
def pageKeys : List S3Object → List String
  | [] => []
  | o :: rest =>
    match o.key with
    | some k => k :: pageKeys rest
    | none => pageKeys rest

/-- The outer loop of list_objects over the paginator pages. -/
def pagesKeys : List S3Page → List String
  | [] => []
  | p :: rest => pageKeys (p.contents.getD []) ++ pagesKeys rest

/-- file_from_s3.list_objects after client construction: paginates
list_objects_v2 with the given Bucket, Prefix and PageSize, yielding
every non-None Key in order.  The paginator is abstracted as a function
from the request to its pages; the issued request is returned with the
keys. -/
def list_objects (bucket keyPfx : String) (maxKeys : Int)
    (paginator : PaginateRequest → List S3Page) : List String × PaginateRequest :=
  let req : PaginateRequest := { bucket := bucket, keyPfx := keyPfx, pageSize := maxKeys }
  (pagesKeys (paginator req), req)

/-! ## IAM/create_120users.py -/

/-- Outcome of one create_user SDK call: success, the caught
EntityAlreadyExists error, or any other ClientError (uncaught). -/
inductive IamOutcome where
  | created
  | entityAlreadyExists
  | clientError (e : ClientError)
deriving DecidableEq, Repr

/-- One observable event of create_users: the dry-run print, or an
actual create_user SDK call. -/
inductive UserEvent where
  | dryRunPrint (userName : String)
  | createUserCall (userName : String) (path : String) (tags : List IamTag)
deriving DecidableEq, Repr

/-- Python range(start, start + count) over machine-unbounded ints:
count elements from start upward, empty when count is not positive. -/
def intRange (start count : Int) : List Int :=
  (List.range count.toNat).map fun k => start + Int.ofNat k

/-- The loop body of create_users over the index list: in dry-run mode
only print; otherwise call create_user, skipping EntityAlreadyExists
and propagating any other ClientError (which aborts the loop).
Returns the event trace so far and the propagated error, if any. -/
def createUsersLoop (pfx : String) (path : String) (tags : List IamTag) (applyFlag : Bool)
    (outcome : String → IamOutcome) : List Int → List UserEvent × Option ClientError
  | [] => ([], none)
  | i :: rest =>
    let userName := pfx ++ toString i
    if applyFlag then
      match outcome userName with
      | IamOutcome.clientError e => ([UserEvent.createUserCall userName path tags], some e)
      | _ =>
        let r := createUsersLoop pfx path tags applyFlag outcome rest
        (UserEvent.createUserCall userName path tags :: r.1, r.2)
    else
      let r := createUsersLoop pfx path tags applyFlag outcome rest
      (UserEvent.dryRunPrint userName :: r.1, r.2)

/-- IAM/create_120users.create_users after client construction: iterate
over range(start, start + count). -/
def create_users (pfx : String) (start count : Int) (path : String) (tags : List IamTag)
    (applyFlag : Bool) (outcome : String → IamOutcome) : List UserEvent × Option ClientError :=
  createUsersLoop pfx path tags applyFlag outcome (intRange start count)

/-- The user name an event concerns. -/
def eventName : UserEvent → String
  | UserEvent.dryRunPrint n => n
  | UserEvent.createUserCall n _ _ => n

/-- Whether an event is an actual create_user SDK call. -/
def isCreateCall : UserEvent → Bool
  | UserEvent.dryRunPrint _ => false
  | UserEvent.createUserCall _ _ _ => true

/-! ## Spec-side definitions

These follow the wording of the claims, to be compared with the
source-derived definitions above. -/

/-- Claim C5's selection predicate: CreateDate present and strictly
earlier than the cutoff, and Status Active or include_disabled. -/
def keyOldAndIncluded (cutoff : Int) (includeDisabled : Bool) (k : KeyMeta) : Bool :=
  (match k.createDate with
   | some d => decide (d < cutoff)
   | none => false)
  && (k.status == some "Active" || includeDisabled)

/-- Claim C5's record contents: owning UserName, AccessKeyId, Status,
CreateDate, and the key's last-used date and region. -/
def specKeyRecord (lastUsedOf : String → LastUsedInfo) (userName : String) (k : KeyMeta) :
    KeyRecord :=
  { userName := userName, accessKeyId := k.accessKeyId, status := k.status,
    createDate := k.createDate, lastUsed := (lastUsedOf k.accessKeyId).lastUsedDate,
    region := (lastUsedOf k.accessKeyId).region }

/-- Claim C5 as worded: for each user, among all its keys across all
pages, exactly those satisfying the predicate yield a record. -/
def old_keys_spec (now maxAgeDays : Int) (includeDisabled : Bool)
    (userPages : List (List (Option String)))
    (keyPages : String → List (List KeyMeta))
    (lastUsedOf : String → LastUsedInfo) : List KeyRecord :=
  (_iter_users userPages).flatMap fun u =>
    ((((keyPages u).flatMap fun p => p).filter
        (keyOldAndIncluded (now - maxAgeDays * secondsPerDay) includeDisabled)).map
      (specKeyRecord lastUsedOf u))

/-- Claim C6 as worded: exactly the (id, state) pairs of volumes with no
tags (tags empty or None), in iterator order. -/
def unusedUntaggedSpec (vols : List Volume) : List (String × String) :=
  (vols.filter fun v => v.tags = none ∨ v.tags = some []).map fun v => (v.id, v.state)

/-- Claim C7 as worded for buckets: the Name field of every bucket of
the response, in response order. -/
def bucketNamesSpec : List Bucket → List String
  | [] => []
  | b :: rest => b.name :: bucketNamesSpec rest

/-- Claim C7 as worded for objects: every non-None Key of every
Contents entry across all pages, preserving page and in-page order. -/
def objectKeysSpec (pages : List S3Page) : List String :=
  pages.flatMap fun p => (p.contents.getD []).filterMap S3Object.key

/-- Claim C9 as worded: the user names prefix + str(i) for i from start
to start + count - 1 in increasing order. -/
def specUserNames (pfx : String) (start count : Int) : List String :=
  (List.range count.toNat).map fun k => pfx ++ toString (start + Int.ofNat k)

/-! ## Theorems -/

/-- Claim C10: configure_logging maps verbosity 0 or less to WARNING,
exactly 1 to INFO, 2 or more to DEBUG, and the configured level is
antitone in the verbosity (numerically no higher for larger verbosity). -/
theorem claim_C10_logging_levels (v v1 v2 : Int) :
    (v ≤ 0 → configure_logging v = WARNING)
    ∧ (v = 1 → configure_logging v = INFO)
    ∧ (2 ≤ v → configure_logging v = DEBUG)
    ∧ (v1 ≤ v2 → configure_logging v2 ≤ configure_logging v1) := by
  unfold configure_logging WARNING INFO DEBUG
  refine ⟨?_, ?_, ?_, ?_⟩ <;> intro h <;> split_ifs <;> omega

/-- Witness for claim C10 at verbosities 0, 1, 2. -/
theorem claim_C10_logging_levels_witness :
    configure_logging 0 = WARNING ∧ configure_logging 1 = INFO
    ∧ configure_logging 2 = DEBUG ∧ configure_logging 2 ≤ configure_logging 0 :=
  ⟨(claim_C10_logging_levels 0 0 2).1 (by decide),
   (claim_C10_logging_levels 1 0 2).2.1 rfl,
   (claim_C10_logging_levels 2 0 2).2.2.1 (by decide),
   (claim_C10_logging_levels 2 0 2).2.2.2 (by decide)⟩

/-- Claim C3: for any action and non-empty instance id list, the
state-changing SDK calls issued by change_state are exactly one call to
the operation corresponding to the action, with exactly the given
instance ids and dry_run flag; the correspondence is start_instances,
stop_instances, reboot_instances, terminate_instances respectively. -/
theorem claim_C3_single_operation (action : EC2Action) (ids : List String)
    (dryRun wait : Bool) (outcome : CallOutcome) (_h : ids ≠ []) :
    (change_state action ids dryRun wait outcome).2.filter isStateChange =
      [EC2Call.stateChange (actionOpName action) ids dryRun]
    ∧ actionOpName EC2Action.start = "start_instances"
    ∧ actionOpName EC2Action.stop = "stop_instances"
    ∧ actionOpName EC2Action.reboot = "reboot_instances"
    ∧ actionOpName EC2Action.terminate = "terminate_instances" := by
  refine ⟨?_, rfl, rfl, rfl, rfl⟩
  unfold change_state
  cases outcome with
  | success =>
    cases action <;> cases wait <;>
      simp [ACTION_WAITERS, isStateChange, List.filter]
  | failure e =>
    by_cases hc : (dryRun && (e.code == some "DryRunOperation")) = true <;>
      simp [hc, isStateChange, List.filter]

/-- Witness for claim C3 on a concrete one-element id list. -/
theorem claim_C3_single_operation_witness :
    (change_state EC2Action.start ["i-0abc"] false false CallOutcome.success).2.filter
        isStateChange =
      [EC2Call.stateChange (actionOpName EC2Action.start) ["i-0abc"] false] :=
  (claim_C3_single_operation EC2Action.start ["i-0abc"] false false CallOutcome.success
    (by simp)).1

/-- Claim C2: when the SDK call fails with a ClientError, change_state
swallows it exactly when dry_run is set and the code is
DryRunOperation, and otherwise propagates the very same error; the
per-volume loop of create_snapshots swallows such an error and
continues with the remaining volumes, aborts on any other ClientError,
and create_snapshots propagates that error to its caller unchanged. -/
theorem claim_C2_dry_run_errors (action : EC2Action) (ids : List String)
    (dryRun wait : Bool) (e : ClientError) (description : String) (deleteOnDays : Int)
    (outcome : String → SnapOutcome) (acc : List String) (v : String)
    (rest vols : List String) :
    ((change_state action ids dryRun wait (CallOutcome.failure e)).1 =
       if dryRun = true ∧ e.code = some "DryRunOperation" then Except.ok ()
       else Except.error e)
    ∧ (outcome v = SnapOutcome.failure e →
        (dryRun = true ∧ e.code = some "DryRunOperation" →
          snapLoop description deleteOnDays dryRun outcome acc (v :: rest) =
            ((snapLoop description deleteOnDays dryRun outcome acc rest).1,
             SnapEvent.createSnapshot description v deleteOnDays dryRun ::
               (snapLoop description deleteOnDays dryRun outcome acc rest).2.1,
             (snapLoop description deleteOnDays dryRun outcome acc rest).2.2))
        ∧ (¬(dryRun = true ∧ e.code = some "DryRunOperation") →
            snapLoop description deleteOnDays dryRun outcome acc (v :: rest) =
              (acc, [SnapEvent.createSnapshot description v deleteOnDays dryRun], some e)))
    ∧ ((snapLoop description deleteOnDays dryRun outcome [] vols).2.2 = some e →
        (create_snapshots vols description deleteOnDays dryRun wait outcome).1 =
          Except.error e) := by
  refine ⟨?_, ?_, ?_⟩
  · unfold change_state
    by_cases hc : dryRun = true ∧ e.code = some "DryRunOperation"
    · rw [if_pos hc]
      simp [hc.1, hc.2]
    · rw [if_neg hc]
      have : (dryRun && (e.code == some "DryRunOperation")) = false := by
        rcases Bool.eq_false_or_eq_true dryRun with hd | hd
        · simp only [hd, Bool.true_and, beq_eq_false_iff_ne, ne_eq]
          intro hcode
          exact hc ⟨hd, hcode⟩
        · simp [hd]
      simp [this]
  · intro hout
    constructor
    · intro hc
      simp only [snapLoop, hout]
      rw [if_pos (by simp [hc.1, hc.2])]
    · intro hc
      simp only [snapLoop, hout]
      rw [if_neg ?_]
      intro hb
      have hb2 : dryRun = true ∧ e.code = some "DryRunOperation" := by simpa using hb
      exact hc hb2
  · intro hprop
    simp [create_snapshots, hprop]

/-- Witness for claim C2: a DryRunOperation failure under dry_run is
swallowed by change_state and skipped by the snapshot loop, while the
same failure without dry_run propagates. -/
theorem claim_C2_dry_run_errors_witness :
    (change_state EC2Action.stop ["i-1"] true false
        (CallOutcome.failure { code := some "DryRunOperation" })).1 = Except.ok ()
    ∧ snapLoop "d" 90 true (fun _ => SnapOutcome.failure { code := some "DryRunOperation" })
        [] ["vol-1"] =
        ((snapLoop "d" 90 true
            (fun _ => SnapOutcome.failure { code := some "DryRunOperation" }) [] []).1,
         SnapEvent.createSnapshot "d" "vol-1" 90 true ::
           (snapLoop "d" 90 true
             (fun _ => SnapOutcome.failure { code := some "DryRunOperation" }) [] []).2.1,
         (snapLoop "d" 90 true
           (fun _ => SnapOutcome.failure { code := some "DryRunOperation" }) [] []).2.2)
    ∧ (change_state EC2Action.stop ["i-1"] false false
        (CallOutcome.failure { code := some "AccessDenied" })).1 =
        Except.error { code := some "AccessDenied" } := by
  refine ⟨?_, ?_, ?_⟩
  · have h := (claim_C2_dry_run_errors EC2Action.stop ["i-1"] true false
      { code := some "DryRunOperation" } "d" 90
      (fun _ => SnapOutcome.failure { code := some "DryRunOperation" }) [] "vol-1" [] []).1
    rwa [if_pos ⟨rfl, rfl⟩] at h
  · exact ((claim_C2_dry_run_errors EC2Action.stop ["i-1"] true false
      { code := some "DryRunOperation" } "d" 90
      (fun _ => SnapOutcome.failure { code := some "DryRunOperation" }) [] "vol-1" [] []).2.1
      rfl).1 ⟨rfl, rfl⟩
  · have h := (claim_C2_dry_run_errors EC2Action.stop ["i-1"] false false
      { code := some "AccessDenied" } "d" 90
      (fun _ => SnapOutcome.failure { code := some "AccessDenied" }) [] "vol-1" [] []).1
    rwa [if_neg (by simp)] at h

/-- The Python or-chain of _resolve_region computes exactly the first
non-empty source in preference order, and errors exactly when there is
none. -/
theorem resolve_region_eq (sessionRegion region a d : Option String) :
    _resolve_region sessionRegion region a d =
      match firstNonEmpty [region, sessionRegion, a, d] with
      | some r => Except.ok r
      | none => Except.error noRegionMessage := by
  rcases region with _ | r <;> rcases sessionRegion with _ | s <;>
    rcases a with _ | a <;> rcases d with _ | d <;>
      simp [_resolve_region, pyOrStr, truthyStr, firstNonEmpty] <;>
        split_ifs <;> simp_all

/-- firstNonEmpty finds nothing exactly when every source is empty. -/
theorem firstNonEmpty_eq_none_iff (l : List (Option String)) :
    firstNonEmpty l = none ↔ ∀ o ∈ l, truthyStr o = false := by
  induction l with
  | nil => simp [firstNonEmpty]
  | cons o rest ih =>
    cases o with
    | none => simp [firstNonEmpty, truthyStr, ih]
    | some s =>
      by_cases hs : s = ""
      · simp [firstNonEmpty, hs, truthyStr, ih]
      · simp [firstNonEmpty, hs, truthyStr, ih]

/-- Claim C1: a client or resource is constructed exactly with the
first non-empty region among the explicit argument, the session's
profile region, AWS_REGION and AWS_DEFAULT_REGION (with the shared or
caller-supplied config), and _resolve_region (hence construction)
raises exactly when all four sources are empty. -/
theorem claim_C1_region_resolution (service : String)
    (sessionRegion region awsR awsD : Option String) (cfg : Option BotoConfig) :
    (∀ r : String,
       get_client service sessionRegion region awsR awsD cfg =
         Except.ok { service := service, region := r, config := cfg.getD _DEFAULT_CONFIG } ↔
       firstNonEmpty [region, sessionRegion, awsR, awsD] = some r)
    ∧ (∀ r : String,
       get_resource service sessionRegion region awsR awsD cfg =
         Except.ok { service := service, region := r, config := cfg.getD _DEFAULT_CONFIG } ↔
       firstNonEmpty [region, sessionRegion, awsR, awsD] = some r)
    ∧ ((∃ msg, _resolve_region sessionRegion region awsR awsD = Except.error msg) ↔
        ∀ o ∈ [region, sessionRegion, awsR, awsD], truthyStr o = false)
    ∧ ((∃ msg, get_client service sessionRegion region awsR awsD cfg = Except.error msg) ↔
        ∃ msg, _resolve_region sessionRegion region awsR awsD = Except.error msg)
    ∧ ((∃ msg, get_resource service sessionRegion region awsR awsD cfg = Except.error msg) ↔
        ∃ msg, _resolve_region sessionRegion region awsR awsD = Except.error msg) := by
  have hres := resolve_region_eq sessionRegion region awsR awsD
  have hnone := firstNonEmpty_eq_none_iff [region, sessionRegion, awsR, awsD]
  cases hfe : firstNonEmpty [region, sessionRegion, awsR, awsD] with
  | none =>
    rw [hfe] at hres
    refine ⟨?_, ?_, ?_, ?_, ?_⟩
    · intro r
      simp [get_client, hres, hfe]
    · intro r
      simp [get_resource, hres, hfe]
    · simp [hres, hnone.mp hfe]
    · simp [get_client, hres]
    · simp [get_resource, hres]
  | some r0 =>
    rw [hfe] at hres
    refine ⟨?_, ?_, ?_, ?_, ?_⟩
    · intro r
      simp [get_client, hres, hfe, ClientSpec.mk.injEq, eq_comm]
    · intro r
      simp [get_resource, hres, hfe, ClientSpec.mk.injEq, eq_comm]
    · constructor
      · rintro ⟨msg, hmsg⟩
        rw [hres] at hmsg
        exact absurd hmsg (by simp)
      · intro hall
        rw [← hnone] at hall
        rw [hall] at hfe
        exact absurd hfe (by simp)
    · simp [get_client, hres]
    · simp [get_resource, hres]

/-- Witness for claim C1: with only the explicit region set, the client
is built in that region, and with no source at all _resolve_region
errors. -/
theorem claim_C1_region_resolution_witness :
    get_client "ec2" none (some "us-west-2") none none none =
      Except.ok { service := "ec2", region := "us-west-2",
                  config := (none : Option BotoConfig).getD _DEFAULT_CONFIG }
    ∧ (∃ msg, _resolve_region none none none none = Except.error msg) :=
  ⟨((claim_C1_region_resolution "ec2" none (some "us-west-2") none none none).1
      "us-west-2").mpr (by simp [firstNonEmpty]),
   ((claim_C1_region_resolution "ec2" none none none none none).2.2.1).mpr
      (by simp [truthyStr])⟩

/-- Claim C4: without --apply the main flow of the volume tool issues
only describe calls (never delete_volume); a delete_volume call occurs
only under --apply; and the volume_deleted waiter runs only under
--apply together with --wait and a non-empty volume list. -/
theorem claim_C4_read_only_default (applyFlag waitFlag : Bool) (vols : List Volume) :
    (applyFlag = false → ∀ c ∈ volumes_main applyFlag waitFlag vols,
       ∃ sv, c = EbsCall.describeVolumes sv)
    ∧ (∀ vid, EbsCall.deleteVolume vid ∈ volumes_main applyFlag waitFlag vols →
        applyFlag = true)
    ∧ (∀ ids, EbsCall.volumeDeletedWaiter ids ∈ volumes_main applyFlag waitFlag vols →
        applyFlag = true ∧ waitFlag = true ∧
          (find_unused_untagged_volumes vols).1 ≠ []) := by
  refine ⟨?_, ?_, ?_⟩
  · rintro rfl c hc
    unfold volumes_main at hc
    split_ifs at hc <;> simp_all [find_unused_untagged_volumes]
  · intro vid hmem
    cases applyFlag with
    | true => rfl
    | false =>
      exfalso
      unfold volumes_main at hmem
      split_ifs at hmem <;> simp_all [find_unused_untagged_volumes]
  · intro ids hmem
    unfold volumes_main find_unused_untagged_volumes at hmem
    by_cases hempty : (collectUntagged vols).isEmpty = true
    · rw [if_pos hempty] at hmem
      simp at hmem
    · rw [if_neg hempty] at hmem
      cases applyFlag with
      | false => simp at hmem
      | true =>
        simp only [if_pos] at hmem
        refine ⟨rfl, ?_, ?_⟩
        · rcases List.mem_append.mp hmem with hl | hr
          · simp at hl
          · unfold delete_volumes at hr
            rcases List.mem_append.mp hr with hmap | hwait
            · simp at hmap
            · split_ifs at hwait with hw
              · have hw2 : waitFlag = true ∧
                    (!(List.map Prod.fst (collectUntagged vols)).isEmpty) = true := by
                  simpa using hw
                exact hw2.1
              · simp at hwait
        · intro hnil
          unfold find_unused_untagged_volumes at hnil
          exact hempty (by simp [show collectUntagged vols = [] from hnil])

/-- Witness for claim C4 on one untagged available volume, apply and
wait both set: the waiter conclusion is reached. -/
theorem claim_C4_read_only_default_witness :
    true = true ∧ true = true ∧
      (find_unused_untagged_volumes
        [{ id := "vol-1", state := "available", tags := none }]).1 ≠ [] :=
  (claim_C4_read_only_default true true
    [{ id := "vol-1", state := "available", tags := none }]).2.2 ["vol-1"] (by decide)

/-- The tag-skipping loop equals the filter-then-map of claim C6. -/
theorem collectUntagged_eq_spec (vols : List Volume) :
    collectUntagged vols = unusedUntaggedSpec vols := by
  induction vols with
  | nil => rfl
  | cons v rest ih =>
    unfold collectUntagged unusedUntaggedSpec
    unfold unusedUntaggedSpec at ih
    cases htags : v.tags with
    | none => simp [truthyList, htags, List.filter_cons, ih]
    | some l =>
      cases l with
      | nil => simp [truthyList, htags, List.filter_cons, ih]
      | cons t ts => simp [truthyList, htags, List.filter_cons, ih]

/-- Claim C6: find_unused_untagged_volumes queries with the status
filter available and returns exactly the (id, state) pairs of the
yielded volumes with empty or None tags, in iterator order. -/
theorem claim_C6_unused_untagged_selection (vols : List Volume) :
    find_unused_untagged_volumes vols =
      (unusedUntaggedSpec vols, [EbsCall.describeVolumes ["available"]]) := by
  unfold find_unused_untagged_volumes
  rw [collectUntagged_eq_spec]

/-- The comprehension of list_buckets equals the Name projection of
claim C7. -/
theorem list_buckets_map_eq (bs : List Bucket) :
    bs.map Bucket.name = bucketNamesSpec bs := by
  induction bs with
  | nil => rfl
  | cons b rest ih => simp [bucketNamesSpec, ih]

/-- The per-page generator loop equals filterMap over the Keys. -/
theorem pageKeys_eq (objs : List S3Object) :
    pageKeys objs = objs.filterMap S3Object.key := by
  induction objs with
  | nil => rfl
  | cons o rest ih =>
    unfold pageKeys
    cases hk : o.key <;> simp [List.filterMap_cons, hk, ih]

/-- The page loop of list_objects equals the flattened spec of claim C7. -/
theorem pagesKeys_eq (pages : List S3Page) :
    pagesKeys pages = objectKeysSpec pages := by
  induction pages with
  | nil => rfl
  | cons p rest ih =>
    unfold pagesKeys objectKeysSpec
    unfold objectKeysSpec at ih
    simp [pageKeys_eq, ih]

/-- Claim C7: list_buckets returns exactly the Name of every bucket of
the single response in order (and nothing when the Buckets field is
absent); list_objects paginates list_objects_v2 with exactly the given
bucket, prefix and page size, and yields every non-None Key of every
Contents entry across all pages, preserving order. -/
theorem claim_C7_s3_listing (bs : List Bucket) (bucket keyPfx : String) (maxKeys : Int)
    (paginator : PaginateRequest → List S3Page) :
    list_buckets (some bs) = bucketNamesSpec bs
    ∧ list_buckets none = []
    ∧ (list_objects bucket keyPfx maxKeys paginator).1 =
        objectKeysSpec (paginator { bucket := bucket, keyPfx := keyPfx, pageSize := maxKeys })
    ∧ (list_objects bucket keyPfx maxKeys paginator).2 =
        { bucket := bucket, keyPfx := keyPfx, pageSize := maxKeys } := by
  refine ⟨?_, rfl, ?_, rfl⟩
  · simp [list_buckets, list_buckets_map_eq]
  · simp [list_objects, pagesKeys_eq]

/-- The skip/continue body of find_old_access_keys yields exactly the
keys selected by claim C5's predicate, with claim C5's record. -/
theorem processKey_eq_spec (cutoff : Int) (inc : Bool) (lu : String → LastUsedInfo)
    (u : String) (k : KeyMeta) :
    processKey cutoff inc lu u k =
      if keyOldAndIncluded cutoff inc k then some (specKeyRecord lu u k) else none := by
  rcases k with ⟨kid, st, cd⟩
  unfold processKey keyOldAndIncluded specKeyRecord
  cases cd with
  | none =>
    by_cases hst : st = some "Active" <;> cases inc <;> simp [hst]
  | some d =>
    by_cases hst : st = some "Active" <;> cases inc <;> simp [hst]

/-- One key page: filterMap of the loop body equals filter-then-map of
the spec predicate. -/
theorem page_filterMap_eq (cutoff : Int) (inc : Bool) (lu : String → LastUsedInfo)
    (u : String) (page : List KeyMeta) :
    page.filterMap (processKey cutoff inc lu u) =
      (page.filter (keyOldAndIncluded cutoff inc)).map (specKeyRecord lu u) := by
  induction page with
  | nil => rfl
  | cons k rest ih =>
    rw [List.filterMap_cons, List.filter_cons, processKey_eq_spec]
    by_cases hk : keyOldAndIncluded cutoff inc k = true
    · simp [hk, ih]
    · simp [hk, ih]

/-- All key pages of one user: the per-page loops equal filtering the
flattened pages. -/
theorem userPages_filterMap_eq (cutoff : Int) (inc : Bool) (lu : String → LastUsedInfo)
    (u : String) (pages : List (List KeyMeta)) :
    pages.flatMap (fun page => page.filterMap (processKey cutoff inc lu u)) =
      (((pages.flatMap fun p => p).filter (keyOldAndIncluded cutoff inc)).map
        (specKeyRecord lu u)) := by
  induction pages with
  | nil => rfl
  | cons p rest ih =>
    rw [List.flatMap_cons, List.flatMap_cons, List.filter_append, List.map_append,
      page_filterMap_eq, ih]

/-- Claim C5: find_old_access_keys yields a record for an access key
exactly when its CreateDate is present and strictly earlier than now
minus max_age_days days and its Status is Active or include_disabled
is set, and each record carries the owning UserName, the AccessKeyId,
Status, CreateDate and the key's last-used date and region. -/
theorem claim_C5_old_access_keys (now maxAgeDays : Int) (inc : Bool)
    (userPages : List (List (Option String)))
    (keyPages : String → List (List KeyMeta)) (lastUsedOf : String → LastUsedInfo) :
    find_old_access_keys now maxAgeDays inc userPages keyPages lastUsedOf =
      old_keys_spec now maxAgeDays inc userPages keyPages lastUsedOf := by
  unfold find_old_access_keys old_keys_spec
  exact congrArg (List.flatMap (_iter_users userPages))
    (funext fun u => userPages_filterMap_eq _ inc lastUsedOf u (keyPages u))

/-- splitFirst finds nothing exactly when the separator does not occur. -/
theorem splitFirst_none_iff (sep : Char) (t : List Char) :
    splitFirst sep t = none ↔ sep ∉ t := by
  induction t with
  | nil => simp [splitFirst]
  | cons c rest ih =>
    unfold splitFirst
    by_cases hc : c = sep
    · subst hc
      simp
    · rw [if_neg hc]
      cases h : splitFirst sep rest with
      | none =>
        simp only [List.mem_cons, not_or]
        constructor
        · intro _
          exact ⟨fun hs => hc hs.symm, ih.mp h⟩
        · intro _
          trivial
      | some kv =>
        have hmem : sep ∈ rest := by
          by_contra hn
          rw [ih.mpr hn] at h
          cases h
        simp [hmem]

/-- splitFirst returns (k, v) exactly when the input is k, the first
separator, then v: the key holds no separator, the value may. -/
theorem splitFirst_some_iff (sep : Char) (t k v : List Char) :
    splitFirst sep t = some (k, v) ↔ t = k ++ sep :: v ∧ sep ∉ k := by
  induction t generalizing k v with
  | nil =>
    simp only [splitFirst]
    constructor
    · intro h
      cases h
    · rintro ⟨h1, -⟩
      exact absurd h1.symm (by simp)
  | cons c rest ih =>
    unfold splitFirst
    by_cases hc : c = sep
    · subst hc
      rw [if_pos rfl]
      constructor
      · intro h
        injection h with h2
        injection h2 with hk hv
        subst hk
        subst hv
        exact ⟨rfl, by simp⟩
      · rintro ⟨heq, hnot⟩
        cases k with
        | nil =>
          injection heq with _ hv
          rw [hv]
        | cons k0 ks =>
          injection heq with h1 _
          exact absurd (h1 ▸ List.mem_cons_self k0 ks) hnot
    · rw [if_neg hc]
      cases h : splitFirst sep rest with
      | none =>
        constructor
        · intro hx
          cases hx
        · rintro ⟨heq, hnot⟩
          cases k with
          | nil =>
            injection heq with h1 _
            exact absurd h1 hc
          | cons k0 ks =>
            injection heq with h1 h2
            have hmem : sep ∈ rest := by
              rw [h2]
              simp
            exact absurd hmem ((splitFirst_none_iff sep rest).mp h)
      | some kv =>
        obtain ⟨k1, v1⟩ := kv
        obtain ⟨hr1, hr2⟩ := (ih k1 v1).mp h
        constructor
        · intro hx
          injection hx with h2
          injection h2 with hk hv
          subst hk
          subst hv
          refine ⟨by rw [hr1]; rfl, ?_⟩
          simp only [List.mem_cons, not_or]
          exact ⟨fun hs => hc hs.symm, hr2⟩
        · rintro ⟨heq, hnot⟩
          cases k with
          | nil =>
            injection heq with h1 _
            exact absurd h1 hc
          | cons k0 ks =>
            injection heq with h1 h2
            have hks : sep ∉ ks := fun hx => hnot (List.mem_cons_of_mem _ hx)
            have := (ih ks v).mpr ⟨h2, hks⟩
            rw [h] at this
            injection this with h3
            injection h3 with hk hv
            rw [h1, hk, hv]

/-- _parse_tag_filters raises exactly when some element has no "=". -/
theorem parse_tag_filters_error_iff (ts : List (List Char)) :
    (∃ e, _parse_tag_filters ts = Except.error e) ↔ ∃ t ∈ ts, '=' ∉ t := by
  induction ts with
  | nil => simp [_parse_tag_filters]
  | cons t rest ih =>
    unfold _parse_tag_filters
    cases hs : splitFirst '=' t with
    | none =>
      have hmem : '=' ∉ t := (splitFirst_none_iff _ t).mp hs
      simp only [List.mem_cons]
      exact ⟨fun _ => ⟨t, Or.inl rfl, hmem⟩, fun _ => ⟨t, rfl⟩⟩
    | some kv =>
      have ht : '=' ∈ t := by
        by_contra hn
        rw [(splitFirst_none_iff _ t).mpr hn] at hs
        cases hs
      cases hr : _parse_tag_filters rest with
      | error e =>
        obtain ⟨t2, ht2, hno2⟩ := ih.mp ⟨e, hr⟩
        exact ⟨fun _ => ⟨t2, List.mem_cons_of_mem _ ht2, hno2⟩, fun _ => ⟨e, rfl⟩⟩
      | ok parsed =>
        constructor
        · rintro ⟨e, he⟩
          cases he
        · rintro ⟨t2, ht2, hno2⟩
          rcases List.mem_cons.mp ht2 with h2 | h2
          · exact absurd (h2 ▸ hno2) (by simp [ht])
          · rcases ih.mpr ⟨t2, h2, hno2⟩ with ⟨e, he⟩
            rw [he] at hr
            cases hr

/-- On success _parse_tag_filters produces one entry per element in
order: the element is key, first "=", value, and the filter pairs
"tag:" ++ key with the single value. -/
theorem parse_tag_filters_ok (ts : List (List Char)) (out : List TagFilter)
    (h : _parse_tag_filters ts = Except.ok out) :
    List.Forall₂
      (fun t entry => ∃ k v, t = k ++ '=' :: v ∧ '=' ∉ k ∧
        entry = TagFilter.mk ([ 't', 'a', 'g', ':'] ++ k) [v]) ts out := by
  induction ts generalizing out with
  | nil =>
    unfold _parse_tag_filters at h
    injection h with h2
    rw [← h2]
    exact List.Forall₂.nil
  | cons t rest ih =>
    unfold _parse_tag_filters at h
    cases hs : splitFirst '=' t with
    | none =>
      rw [hs] at h
      cases h
    | some kv =>
      rw [hs] at h
      cases hr : _parse_tag_filters rest with
      | error e =>
        rw [hr] at h
        cases h
      | ok parsed =>
        rw [hr] at h
        injection h with h2
        obtain ⟨k1, v1⟩ := kv
        obtain ⟨heq, hnot⟩ := (splitFirst_some_iff '=' t k1 v1).mp hs
        rw [← h2]
        exact List.Forall₂.cons ⟨k1, v1, heq, hnot, rfl⟩ (ih parsed hr)

/-- _parse_tags raises exactly when some element has no "=". -/
theorem parse_tags_error_iff (ts : List (List Char)) :
    (∃ e, _parse_tags ts = Except.error e) ↔ ∃ t ∈ ts, '=' ∉ t := by
  induction ts with
  | nil => simp [_parse_tags]
  | cons t rest ih =>
    unfold _parse_tags
    cases hs : splitFirst '=' t with
    | none =>
      have hmem : '=' ∉ t := (splitFirst_none_iff _ t).mp hs
      simp only [List.mem_cons]
      exact ⟨fun _ => ⟨t, Or.inl rfl, hmem⟩, fun _ => ⟨t, rfl⟩⟩
    | some kv =>
      have ht : '=' ∈ t := by
        by_contra hn
        rw [(splitFirst_none_iff _ t).mpr hn] at hs
        cases hs
      cases hr : _parse_tags rest with
      | error e =>
        obtain ⟨t2, ht2, hno2⟩ := ih.mp ⟨e, hr⟩
        exact ⟨fun _ => ⟨t2, List.mem_cons_of_mem _ ht2, hno2⟩, fun _ => ⟨e, rfl⟩⟩
      | ok parsed =>
        constructor
        · rintro ⟨e, he⟩
          cases he
        · rintro ⟨t2, ht2, hno2⟩
          rcases List.mem_cons.mp ht2 with h2 | h2
          · exact absurd (h2 ▸ hno2) (by simp [ht])
          · rcases ih.mpr ⟨t2, h2, hno2⟩ with ⟨e, he⟩
            rw [he] at hr
            cases hr

/-- On success _parse_tags produces one Key/Value tag per element in
order, split at the first "=". -/
theorem parse_tags_ok (ts : List (List Char)) (out : List IamTag)
    (h : _parse_tags ts = Except.ok out) :
    List.Forall₂
      (fun t entry => ∃ k v, t = k ++ '=' :: v ∧ '=' ∉ k ∧
        entry = IamTag.mk k v) ts out := by
  induction ts generalizing out with
  | nil =>
    unfold _parse_tags at h
    injection h with h2
    rw [← h2]
    exact List.Forall₂.nil
  | cons t rest ih =>
    unfold _parse_tags at h
    cases hs : splitFirst '=' t with
    | none =>
      rw [hs] at h
      cases h
    | some kv =>
      rw [hs] at h
      cases hr : _parse_tags rest with
      | error e =>
        rw [hr] at h
        cases h
      | ok parsed =>
        rw [hr] at h
        injection h with h2
        obtain ⟨k1, v1⟩ := kv
        obtain ⟨heq, hnot⟩ := (splitFirst_some_iff '=' t k1 v1).mp hs
        rw [← h2]
        exact List.Forall₂.cons ⟨k1, v1, heq, hnot, rfl⟩ (ih parsed hr)

/-- Claim C8: _parse_tag_filters and _parse_tags raise exactly when
some input element contains no "="; otherwise each returns one parsed
entry per input element in input order, splitting each element at its
first "=" only (the key holds no "=", the value may). -/
theorem claim_C8_tag_parsing (ts : List (List Char)) :
    ((∃ e, _parse_tag_filters ts = Except.error e) ↔ ∃ t ∈ ts, '=' ∉ t)
    ∧ (∀ out, _parse_tag_filters ts = Except.ok out →
        List.Forall₂
          (fun t entry => ∃ k v, t = k ++ '=' :: v ∧ '=' ∉ k ∧
            entry = TagFilter.mk ([ 't', 'a', 'g', ':'] ++ k) [v]) ts out)
    ∧ ((∃ e, _parse_tags ts = Except.error e) ↔ ∃ t ∈ ts, '=' ∉ t)
    ∧ (∀ out, _parse_tags ts = Except.ok out →
        List.Forall₂
          (fun t entry => ∃ k v, t = k ++ '=' :: v ∧ '=' ∉ k ∧
            entry = IamTag.mk k v) ts out) :=
  ⟨parse_tag_filters_error_iff ts, fun out h => parse_tag_filters_ok ts out h,
   parse_tags_error_iff ts, fun out h => parse_tags_ok ts out h⟩

/-- Witness for claim C8: the element a=b=c parses into key a and
value b=c (the value keeps its "="). -/
theorem claim_C8_tag_parsing_witness :
    List.Forall₂
      (fun t entry => ∃ k v, t = k ++ '=' :: v ∧ '=' ∉ k ∧
        entry = TagFilter.mk ([ 't', 'a', 'g', ':'] ++ k) [v])
      [[ 'a', '=', 'b', '=', 'c']]
      [TagFilter.mk [ 't', 'a', 'g', ':', 'a'] [[ 'b', '=', 'c']]] :=
  (claim_C8_tag_parsing [[ 'a', '=', 'b', '=', 'c']]).2.1
    [TagFilter.mk [ 't', 'a', 'g', ':', 'a'] [[ 'b', '=', 'c']]] (by rfl)

/-- Dry-run create_users only prints, one line per index in order. -/
theorem createUsersLoop_dry (pfx path : String) (tags : List IamTag)
    (outcome : String → IamOutcome) (idxs : List Int) :
    createUsersLoop pfx path tags false outcome idxs =
      (idxs.map fun i => UserEvent.dryRunPrint (pfx ++ toString i), none) := by
  induction idxs with
  | nil => rfl
  | cons i rest ih => simp [createUsersLoop, ih]

/-- With apply set and no uncaught ClientError, create_users attempts
every index in order: EntityAlreadyExists does not stop the loop. -/
theorem createUsersLoop_no_error (pfx path : String) (tags : List IamTag)
    (outcome : String → IamOutcome) (idxs : List Int)
    (h : ∀ n e, outcome n ≠ IamOutcome.clientError e) :
    createUsersLoop pfx path tags true outcome idxs =
      (idxs.map fun i => UserEvent.createUserCall (pfx ++ toString i) path tags, none) := by
  induction idxs with
  | nil => rfl
  | cons i rest ih =>
    simp only [createUsersLoop, List.map_cons]
    cases hout : outcome (pfx ++ toString i) with
    | clientError e => exact absurd hout (h _ e)
    | created => simp [hout, ih]
    | entityAlreadyExists => simp [hout, ih]

/-- In every mode the user names touched by the loop are an in-order
segment of the index list from its start: the loop never invents names
and never reorders or repeats them. -/
theorem createUsersLoop_names_sub (pfx path : String) (tags : List IamTag)
    (applyFlag : Bool) (outcome : String → IamOutcome) (idxs : List Int) :
    ((createUsersLoop pfx path tags applyFlag outcome idxs).1.map eventName) <+:
      idxs.map fun i => pfx ++ toString i := by
  induction idxs with
  | nil => simp [createUsersLoop]
  | cons i rest ih =>
    simp only [createUsersLoop, List.map_cons]
    cases applyFlag with
    | false =>
      simpa [eventName] using ih
    | true =>
      cases hout : outcome (pfx ++ toString i) with
      | clientError e =>
        simp [eventName]
      | created =>
        simp only [hout, List.map_cons, eventName]
        simpa [eventName] using ih
      | entityAlreadyExists =>
        simp only [hout, List.map_cons, eventName]
        simpa [eventName] using ih

/-- Claim C9: create_users considers exactly the names prefix + str(i)
for i from start to start + count - 1 in increasing order and then
stops (the names it touches are always an initial segment of that
list, whose length is count for non-negative count); without --apply
it only prints and issues no create_user call; with --apply and no
uncaught ClientError every one of those users is attempted, an
EntityAlreadyExists on one user not preventing the rest. -/
theorem claim_C9_bounded_creation (pfx path : String) (tags : List IamTag)
    (start count : Int) (applyFlag : Bool) (outcome : String → IamOutcome) :
    (create_users pfx start count path tags false outcome =
       ((specUserNames pfx start count).map UserEvent.dryRunPrint, none))
    ∧ ((∀ n e, outcome n ≠ IamOutcome.clientError e) →
        create_users pfx start count path tags true outcome =
          ((specUserNames pfx start count).map
            (fun n => UserEvent.createUserCall n path tags), none))
    ∧ (((create_users pfx start count path tags applyFlag outcome).1.map eventName) <+:
        specUserNames pfx start count)
    ∧ (0 ≤ count → ((specUserNames pfx start count).length : Int) = count) := by
  have hnames : (intRange start count).map (fun i => pfx ++ toString i) =
      specUserNames pfx start count := by
    simp [intRange, specUserNames, List.map_map, Function.comp]
  refine ⟨?_, ?_, ?_, ?_⟩
  · rw [create_users, createUsersLoop_dry, ← hnames, List.map_map]
    rfl
  · intro h
    rw [create_users, createUsersLoop_no_error pfx path tags outcome _ h, ← hnames,
      List.map_map]
    rfl
  · rw [← hnames]
    exact createUsersLoop_names_sub pfx path tags applyFlag outcome (intRange start count)
  · intro hc
    have h1 : (specUserNames pfx start count).length = count.toNat := by
      unfold specUserNames
      rw [List.length_map, List.length_range]
    rw [h1]
    exact Int.toNat_of_nonneg hc

/-- Witness for claim C9: two users starting at 1, all creations
succeeding, are both attempted; the considered-name count is 2. -/
theorem claim_C9_bounded_creation_witness :
    create_users "demo-user-" 1 2 "/" [] true (fun _ => IamOutcome.created) =
      ((specUserNames "demo-user-" 1 2).map
        (fun n => UserEvent.createUserCall n "/" []), none)
    ∧ ((specUserNames "demo-user-" 1 2).length : Int) = 2 :=
  ⟨(claim_C9_bounded_creation "demo-user-" "/" [] 1 2 true
      (fun _ => IamOutcome.created)).2.1 (fun n e h => IamOutcome.noConfusion h),
   (claim_C9_bounded_creation "demo-user-" "/" [] 1 2 true
      (fun _ => IamOutcome.created)).2.2.2 (by decide)⟩

end Boto3Scripts
